import Mathlib

/-!
Verification of the YachtDice settle-detection and outcome-resolution core.

The definitions below are shallow embeddings of the TypeScript sources:
* `src/src/utils/Points.tsx` / `src/src/components/Dice.tsx` —
  `getDiceValueFromRotation` (three.js `Vector3.applyQuaternion` formula);
* `src/src/components/Dice.tsx` (second revision, lines 230–556) —
  `lockDicePhysics`, `checkStability`, the reset effect;
* `src/unnamed/part_002` / `src/unnamed/part_001` — `handleDiceStable`,
  `handleReset` of the `DiceContainer` coordinator;
* `src/src/utils/Points.tsx` — the `Points` aggregation effect.

Floating-point numbers are modelled by rationals.  Where the source compares a
Euclidean length `Math.sqrt s` against a nonnegative epsilon `e`, the embedding
compares the squared length `s` against `e^2`, which is equivalent.
-/

/-- A 3-vector, mirroring `THREE.Vector3` components. -/
structure Vec3 where
  x : ℚ
  y : ℚ
  z : ℚ
deriving DecidableEq, Repr

/-- A quaternion, mirroring `THREE.Quaternion` components `(x, y, z, w)`. -/
structure Quat where
  x : ℚ
  y : ℚ
  z : ℚ
  w : ℚ
deriving DecidableEq, Repr

/-- The zero vector (also the `getD` default for history indexing). -/
def zeroVec : Vec3 := ⟨0, 0, 0⟩

/-- Squared Euclidean distance: `THREE.Vector3.distanceTo` is its square root. -/
def distSq (a b : Vec3) : ℚ :=
  (a.x - b.x) ^ 2 + (a.y - b.y) ^ 2 + (a.z - b.z) ^ 2

/-- Squared Euclidean norm: the magnitudes in `checkStability` are its square
root (`Math.sqrt(Math.pow(v.x,2) + Math.pow(v.y,2) + Math.pow(v.z,2))`). -/
def normSq (v : Vec3) : ℚ := v.x ^ 2 + v.y ^ 2 + v.z ^ 2

/-- `THREE.Vector3.applyQuaternion`, exactly as three.js computes it:
`t = 2 * cross(q.xyz, v)`, result `v + q.w * t + cross(q.xyz, t)`.
No normalization of `q` is performed. -/
def applyQuaternion (q : Quat) (v : Vec3) : Vec3 :=
  let tx := 2 * (q.y * v.z - q.z * v.y)
  let ty := 2 * (q.z * v.x - q.x * v.z)
  let tz := 2 * (q.x * v.y - q.y * v.x)
  ⟨v.x + q.w * tx + (q.y * tz - q.z * ty),
   v.y + q.w * ty + (q.z * tx - q.x * tz),
   v.z + q.w * tz + (q.x * ty - q.y * tx)⟩

/-- Scalar multiple of a quaternion (a non-normalized input `s·q`). -/
def smulQ (s : ℚ) (q : Quat) : Quat := ⟨s * q.x, s * q.y, s * q.z, s * q.w⟩

/-- Squared norm of a quaternion (1 exactly for unit quaternions). -/
def quatNormSq (q : Quat) : ℚ := q.x ^ 2 + q.y ^ 2 + q.z ^ 2 + q.w ^ 2

/-- The six face normals with their assigned values, in the fixed iteration
order of `getDiceValueFromRotation`: Z+ ↦ 1, X+ ↦ 2, Y+ ↦ 3, Z− ↦ 4,
X− ↦ 5, Y− ↦ 6. -/
def faces : List (Vec3 × ℕ) :=
  [(⟨0, 0, 1⟩, 1), (⟨1, 0, 0⟩, 2), (⟨0, 1, 0⟩, 3),
   (⟨0, 0, -1⟩, 4), (⟨-1, 0, 0⟩, 5), (⟨0, -1, 0⟩, 6)]

/-- Alignment of each rotated face normal with world-up `(0,1,0)` (the dot
product reduces to the rotated normal's `y` component), paired with the face
value, in iteration order. -/
def aligns (q : Quat) : List (ℚ × ℕ) :=
  faces.map fun f => ((applyQuaternion q f.1).y, f.2)

/-- The `forEach` loop of `getDiceValueFromRotation`: the accumulator is
`(maxAlignment, upFaceValue)`, with `maxAlignment` starting at `-Infinity`
(modelled as `none`, below every rational) and `upFaceValue` starting at 1;
an entry replaces the accumulator exactly when its alignment is strictly
greater. -/
def runSel : List (ℚ × ℕ) → Option ℚ × ℕ → Option ℚ × ℕ
  | [], acc => acc
  | p :: rest, (none, _) => runSel rest (some p.1, p.2)
  | p :: rest, (some m, b) =>
      if m < p.1 then runSel rest (some p.1, p.2) else runSel rest (some m, b)

/-- `getDiceValueFromRotation` from `src/src/utils/Points.tsx` lines 14–50
(identical copies in `Dice.tsx` lines 182–218, `part_004`, `part_005`). -/
def getDiceValueFromRotation (q : Quat) : ℕ := (runSel (aligns q) (none, 1)).2

/-- Specification-side resolver ("the value of the face whose rotated normal
has the maximum dot product, tie-break: first maximum encountered in the fixed
iteration order"): the value of the first entry whose alignment is greatest,
with default `d` on an empty list. -/
def firstMaxVal (l : List (ℚ × ℕ)) (d : ℕ) : ℕ :=
  match l.find? (fun p => l.all fun p' => decide (p'.1 ≤ p.1)) with
  | some p => p.2
  | none => d

/-- Specification-side orientation resolver, written from the spec's words,
to be compared with the source-derived `getDiceValueFromRotation`. -/
def specResolve (q : Quat) : ℕ := firstMaxVal (aligns q) 1

/-- Canonical axis-aligned rotations (cube-group unit quaternions), one per
face value: `canonQuat k` resolves to face value `k`. -/
def canonQuat : ℕ → Quat
  | 1 => ⟨-1/2, -1/2, -1/2, 1/2⟩
  | 2 => ⟨1/2, 1/2, 1/2, 1/2⟩
  | 3 => ⟨0, 0, 0, 1⟩
  | 4 => ⟨1/2, -1/2, 1/2, 1/2⟩
  | 5 => ⟨-1/2, 1/2, -1/2, 1/2⟩
  | _ => ⟨1, 0, 0, 0⟩

/-- Position epsilon of `checkStability` (`0.0001` length units). -/
def posEps : ℚ := 1 / 10000

/-- Velocity epsilon of `checkStability` (`0.005`). -/
def velEps : ℚ := 5 / 1000

/-- One body as `PhysicsDice` sees it: the lock flag `isLockedRef`, the sample
history `positionHistoryRef`, and the rigid-body handle's state (body type,
rotation, velocities), plus the trace of `onStable(index, value)` calls. -/
structure DiceBody where
  locked : Bool
  history : List Vec3
  bodyType : ℕ
  rotation : Quat
  linvel : Vec3
  angvel : Vec3
  finalValue : ℕ
  index : ℕ
  stableEvents : List (ℕ × ℕ)
deriving DecidableEq, Repr

/-- `lockDicePhysics` from `src/src/components/Dice.tsx` lines 267–288:
guarded by `!isLockedRef.current`; resolves the final value from the current
rotation, sets the body type to fixed (2), zeroes both velocities, sets the
lock flag, and reports `onStable(index, value)` once. -/
def lockDicePhysics (b : DiceBody) : DiceBody :=
  if b.locked then b
  else
    let v := getDiceValueFromRotation b.rotation
    { b with
      finalValue := v
      bodyType := 2
      linvel := zeroVec
      angvel := zeroVec
      locked := true
      stableEvents := b.stableEvents ++ [(b.index, v)] }

/-- The history push of `checkStability`: append the current position, then
`shift()` the oldest entry whenever more than 10 are retained. -/
def pushHistory (h : List Vec3) (p : Vec3) : List Vec3 :=
  let h1 := h ++ [p]
  if 10 < h1.length then h1.tail else h1

/-- The displacement loop of `checkStability`: for `i = 1..4`, compare
`history[len-i-1]` with `history[len-i]`; any displacement exceeding `posEps`
makes the body not stable (squared comparison, see the header note). -/
def pairsStable (h : List Vec3) : Bool :=
  (List.range' 1 4).all fun i =>
    !(decide (posEps ^ 2 <
        distSq (h.getD (h.length - i - 1) zeroVec) (h.getD (h.length - i) zeroVec)))

/-- The velocity test of `checkStability`: not stable when either the linear
or the angular velocity magnitude exceeds `velEps` (squared comparison). -/
def velStable (lv av : Vec3) : Bool :=
  !(decide (velEps ^ 2 < normSq lv)) && !(decide (velEps ^ 2 < normSq av))

/-- The settle decision of `checkStability` on the post-push history: needs at
least 5 samples, the 4-pair displacement test and the velocity test. -/
def isStableNow (h : List Vec3) (lv av : Vec3) : Bool :=
  decide (5 ≤ h.length) && pairsStable h && velStable lv av

/-- `checkStability` from `src/src/components/Dice.tsx` lines 291–351 (same as
`src/unnamed/part_003` lines 89–154 up to a gravity-scale restore): early
return when locked; push the current position into the history (trimmed to
10); once 5 samples are held, lock the body via `lockDicePhysics` exactly when
the displacement and velocity tests pass. -/
def checkStability (b : DiceBody) (p : Vec3) : DiceBody :=
  if b.locked then b
  else
    let h1 := pushHistory b.history p
    let b1 := { b with history := h1 }
    if isStableNow h1 b.linvel b.angvel then lockDicePhysics b1 else b1

/-- A tick sequence: `checkStability` applied to successive position samples
(the 100 ms `stabilityCheckRef` interval). -/
def runChecks (b : DiceBody) (ps : List Vec3) : DiceBody :=
  ps.foldl checkStability b

/-- One per-roll action on a body: the detector path (`checkStability` with a
sample) or the forced-timeout path (direct `lockDicePhysics`). -/
inductive DiceOp where
  | lock : DiceOp
  | check : Vec3 → DiceOp
deriving DecidableEq, Repr

/-- Apply one action. -/
def stepOp (b : DiceBody) : DiceOp → DiceBody
  | .lock => lockDicePhysics b
  | .check p => checkStability b p

/-- Apply a sequence of detector/timeout actions. -/
def runOps (b : DiceBody) (ops : List DiceOp) : DiceBody :=
  ops.foldl stepOp b

/-- Number of dice (`diceCount = 5` in `DiceContainer`). -/
def diceCount : ℕ := 5

/-- The coordinator's per-session state in `src/unnamed/part_002`:
`stableDiceCountRef`, `hasCalculatedPointsRef`, the `diceValues` array
(sparse, modelled as a partial map), and the count of fired completion
timeouts (`setTimeout(…, pointsCalcDelay)` calls). -/
structure CoordState where
  stableDiceCount : ℕ
  hasCalculatedPoints : Bool
  diceValues : ℕ → Option ℕ
  completionsFired : ℕ

/-- The confirmation delay before the point calculation (100 ms in
`src/unnamed/part_002` line 73; 200 ms in `src/unnamed/part_001`). -/
def pointsCalcDelay : ℕ := 100

/-- `handleDiceStable` from `src/unnamed/part_002` lines 49–75: increments the
settled count unconditionally, stores the value at `index`, and when the count
equals `diceCount` with the one-shot flag clear, sets the flag and schedules
the completion (point calculation) once. -/
def handleDiceStable (index value : ℕ) (s : CoordState) : CoordState :=
  let s1 : CoordState :=
    { s with
      stableDiceCount := s.stableDiceCount + 1
      diceValues := fun j => if j = index then some value else s.diceValues j }
  if s1.stableDiceCount = diceCount && !s1.hasCalculatedPoints then
    { s1 with hasCalculatedPoints := true, completionsFired := s1.completionsFired + 1 }
  else s1

/-- A fresh roll session (state right after an accepted reset). -/
def initSession : CoordState :=
  { stableDiceCount := 0
    hasCalculatedPoints := false
    diceValues := fun _ => none
    completionsFired := 0 }

/-- Deliver a list of `settled(bodyIndex, value)` notifications in order. -/
def runDeliveries (ds : List (ℕ × ℕ)) (s : CoordState) : CoordState :=
  ds.foldl (fun s d => handleDiceStable d.1 d.2 s) s

/-- The container state touched by `handleReset` in `src/unnamed/part_002`
lines 78–103: the reset counter, the rolling flag, and the session fields it
clears. -/
structure ContainerState where
  resetCount : ℕ
  isRolling : Bool
  stableDiceCount : ℕ
  hasCalculatedPoints : Bool
  diceValues : ℕ → Option ℕ
  totalPoints : ℕ

/-- `handleReset` from `src/unnamed/part_002` lines 78–103: guarded by
`!isRolling`; when accepted it zeroes the settled count, clears the one-shot
flag, the stored values and the total, sets the rolling flag and increments
the reset counter (the respawn broadcast); when a roll is in flight the whole
body is skipped. -/
def handleReset (s : ContainerState) : ContainerState :=
  if s.isRolling then s
  else
    { s with
      stableDiceCount := 0
      hasCalculatedPoints := false
      diceValues := fun _ => none
      totalPoints := 0
      isRolling := true
      resetCount := s.resetCount + 1 }

/-- Whether a trigger is accepted: the `!isRolling` guard of `handleReset`
(also the enabled state of the trigger button). -/
def triggerAccepted (s : ContainerState) : Bool := !s.isRolling

/-- The `Points` aggregation effect from `src/src/utils/Points.tsx` lines
65–86: walk the bodies in order, resolve each rotation, push the value and add
it to the running sum; returns `(values, total)`. -/
def computePoints (rots : List Quat) : List ℕ × ℕ :=
  rots.foldl
    (fun acc r =>
      let v := getDiceValueFromRotation r
      (acc.1 ++ [v], acc.2 + v))
    ([], 0)

/-- The per-body controller state touched by the reset effect of
`PhysicsDice` (`src/src/components/Dice.tsx` lines 354–390):
`lastResetCountRef`, the sample history, the lock flag, the damping value,
the stored final value, the resetting flag, and the count of scheduled
respawn timeouts. -/
structure DiceCtrl where
  lastResetCount : ℕ
  history : List Vec3
  locked : Bool
  currentDamping : ℚ
  finalValue : ℕ
  isResetting : Bool
  respawnsScheduled : ℕ

/-- The reset effect of `PhysicsDice` (`src/src/components/Dice.tsx` lines
354–390, same guard in `src/unnamed/part_003` lines 157–194): acts only when
`resetCount > 0` and differs from `lastResetCountRef.current`; then it records
the new count, clears the existing timers and the history, sets the resetting
flag, restores the damping to 0.5, clears the lock flag, resets the stored
value to 1 and schedules the respawn timeout. -/
def resetEffect (c : DiceCtrl) (resetCount : ℕ) : DiceCtrl :=
  if 0 < resetCount ∧ resetCount ≠ c.lastResetCount then
    { c with
      lastResetCount := resetCount
      history := []
      isResetting := true
      currentDamping := 1/2
      locked := false
      finalValue := 1
      respawnsScheduled := c.respawnsScheduled + 1 }
  else c

/-- The common start delay passed to every body (`startDelay={100}`). -/
def diceStartDelay : ℕ := 100

/-- Forced-lock timeout of `Dice.tsx` (second revision, line 466): 3000 ms. -/
def forcedLockTimeout : ℕ := 3000

/-- `Dice.tsx` reports `onStable` synchronously inside `lockDicePhysics`. -/
def stableCallbackDelay : ℕ := 0

/-- Rolling-flag timeout of `src/unnamed/part_002` line 101: 4000 ms. -/
def rollingFlagTimeout : ℕ := 4000

/-- Forced-lock timeout of `src/unnamed/part_003` line 287: 4000 ms. -/
def forcedLockTimeoutAlt : ℕ := 4000

/-- `part_003` reports `onStable` 50 ms after locking (line 79). -/
def stableCallbackDelayAlt : ℕ := 50

/-- Rolling-flag timeout of `src/unnamed/part_001` line 107: 4500 ms. -/
def rollingFlagTimeoutAlt : ℕ := 4500

/-- Latest possible per-body forced-freeze deadline: start delay plus forced
timeout plus callback delay (configuration `part_002` + `Dice.tsx`). -/
def bodyForcedDeadline : ℕ := diceStartDelay + forcedLockTimeout + stableCallbackDelay

/-- Latest per-body forced-freeze deadline for the `part_001` + `part_003`
configuration. -/
def bodyForcedDeadlineAlt : ℕ := diceStartDelay + forcedLockTimeoutAlt + stableCallbackDelayAlt

/-- A body's actual lock time: its natural settle time when the detector fires
before the forced deadline, else the forced deadline itself. -/
def bodyLockTime (natural : Option ℕ) (deadline : ℕ) : ℕ :=
  match natural with
  | some t => min t deadline
  | none => deadline

/-- A freshly respawned body: unlocked, empty history, dynamic, at rest. -/
def freshBody : DiceBody :=
  { locked := false
    history := []
    bodyType := 0
    rotation := ⟨0, 0, 0, 1⟩
    linvel := zeroVec
    angvel := zeroVec
    finalValue := 1
    index := 0
    stableEvents := [] }

/-- An already-locked body (used to exercise the idempotence guards). -/
def lockedBody : DiceBody :=
  { locked := true
    history := [zeroVec]
    bodyType := 2
    rotation := ⟨0, 0, 0, 1⟩
    linvel := zeroVec
    angvel := zeroVec
    finalValue := 3
    index := 0
    stableEvents := [(0, 3)] }

/-- A container state with a roll in flight. -/
def rollingContainer : ContainerState :=
  { resetCount := 2
    isRolling := true
    stableDiceCount := 3
    hasCalculatedPoints := false
    diceValues := fun _ => none
    totalPoints := 0 }

/-- A controller that has already processed reset count 7. -/
def ctrlAfterSeven : DiceCtrl :=
  { lastResetCount := 7
    history := [zeroVec]
    locked := true
    currentDamping := 20
    finalValue := 4
    isResetting := false
    respawnsScheduled := 1 }

/-! ## Helper lemmas -/

lemma find?_congr_mem {α : Type} (p q : α → Bool) :
    ∀ l : List α, (∀ a ∈ l, p a = q a) → l.find? p = l.find? q := by
  intro l
  induction l with
  | nil => intro _; rfl
  | cons a t ih =>
    intro h
    have ha := h a (List.mem_cons_self a t)
    by_cases hq : q a = true
    · rw [List.find?_cons_of_pos _ (ha ▸ hq), List.find?_cons_of_pos _ hq]
    · have hp : ¬p a = true := by rw [ha]; exact hq
      rw [List.find?_cons_of_neg _ hp, List.find?_cons_of_neg _ hq]
      exact ih fun x hx => h x (List.mem_cons_of_mem a hx)

/-- Every nonempty candidate list has an entry of maximal alignment. -/
lemma exists_max_pair : ∀ l : List (ℚ × ℕ), l ≠ [] → ∃ y ∈ l, ∀ x ∈ l, x.1 ≤ y.1 := by
  intro l
  induction l with
  | nil => intro h; exact absurd rfl h
  | cons p rest ih =>
    intro _
    cases rest with
    | nil =>
      exact ⟨p, List.mem_cons_self p [], by
        intro x hx
        simp only [List.mem_singleton] at hx
        subst hx; exact le_refl _⟩
    | cons r t =>
      obtain ⟨y, hy, hmax⟩ := ih (List.cons_ne_nil r t)
      by_cases hpy : p.1 ≤ y.1
      · refine ⟨y, List.mem_cons_of_mem p hy, ?_⟩
        intro x hx
        rcases List.mem_cons.mp hx with h | h
        · subst h; exact hpy
        · exact hmax x h
      · refine ⟨p, List.mem_cons_self p (r :: t), ?_⟩
        intro x hx
        rcases List.mem_cons.mp hx with h | h
        · subst h; exact le_refl _
        · exact le_trans (hmax x h) (le_of_lt (not_le.mp hpy))

/-- Seeded characterization of the selection fold: with current maximum `m`
and current value `b`, the fold returns the value of the first entry that
strictly beats `m` and is at least every entry of the list, else `b`. -/
lemma runSel_some : ∀ (l : List (ℚ × ℕ)) (m : ℚ) (b : ℕ),
    (runSel l (some m, b)).2 =
      (match l.find? (fun p => decide (m < p.1) && l.all fun p' => decide (p'.1 ≤ p.1)) with
       | some p => p.2
       | none => b) := by
  intro l
  induction l with
  | nil => intro m b; rfl
  | cons p rest ih =>
    intro m b
    show (if m < p.1 then runSel rest (some p.1, p.2) else runSel rest (some m, b)).2 = _
    by_cases hmp : m < p.1
    · rw [if_pos hmp, ih p.1 p.2]
      by_cases hall : ∀ x ∈ rest, x.1 ≤ p.1
      · have hfn : rest.find?
            (fun x => decide (p.1 < x.1) && rest.all fun p' => decide (p'.1 ≤ x.1)) = none := by
          rw [List.find?_eq_none]
          intro x hx hcontra
          simp only [Bool.and_eq_true, decide_eq_true_eq] at hcontra
          exact absurd (hall x hx) (not_le.mpr hcontra.1)
        have hPp : (decide (m < p.1) && (p :: rest).all fun p' => decide (p'.1 ≤ p.1)) = true := by
          simp only [Bool.and_eq_true, decide_eq_true_eq, List.all_cons, List.all_eq_true]
          exact ⟨hmp, le_refl _, fun x hx => hall x hx⟩
        rw [hfn]
        simp only [List.find?_cons, hPp]
      · push_neg at hall
        obtain ⟨x₀, hx₀, hgt⟩ := hall
        have hPp : (decide (m < p.1) && (p :: rest).all fun p' => decide (p'.1 ≤ p.1)) = false := by
          refine Bool.eq_false_iff.mpr ?_
          simp only [ne_eq, Bool.and_eq_true, decide_eq_true_eq, List.all_cons, List.all_eq_true]
          rintro ⟨-, -, hrest⟩
          exact absurd (hrest x₀ hx₀) (not_le.mpr hgt)
        simp only [List.find?_cons, hPp]
        have hcong : rest.find?
              (fun x => decide (m < x.1) && (p :: rest).all fun p' => decide (p'.1 ≤ x.1))
            = rest.find?
              (fun x => decide (p.1 < x.1) && rest.all fun p' => decide (p'.1 ≤ x.1)) := by
          apply find?_congr_mem
          intro x hx
          by_cases hA : (rest.all fun p' => decide (p'.1 ≤ x.1)) = true
          · have hx₀le : x₀.1 ≤ x.1 := by
              simp only [List.all_eq_true, decide_eq_true_eq] at hA
              exact hA x₀ hx₀
            have h1 : p.1 < x.1 := lt_of_lt_of_le hgt hx₀le
            have h2 : m < x.1 := lt_trans hmp h1
            simp [List.all_cons, hA, h1, h2, le_of_lt h1]
          · simp [List.all_cons, hA]
        rw [hcong]
        obtain ⟨y, hy, hymax⟩ := exists_max_pair rest (List.ne_nil_of_mem hx₀)
        cases hres : rest.find?
            (fun x => decide (p.1 < x.1) && rest.all fun p' => decide (p'.1 ≤ x.1)) with
        | some y' => rfl
        | none =>
          rw [List.find?_eq_none] at hres
          refine absurd ?_ (hres y hy)
          simp only [Bool.and_eq_true, decide_eq_true_eq, List.all_eq_true]
          exact ⟨lt_of_lt_of_le hgt (hymax x₀ hx₀), fun x hx => hymax x hx⟩
    · rw [if_neg hmp, ih m b]
      have hle : p.1 ≤ m := not_lt.mp hmp
      have hPp : (decide (m < p.1) && (p :: rest).all fun p' => decide (p'.1 ≤ p.1)) = false := by
        simp [hmp]
      simp only [List.find?_cons, hPp]
      have hcong : rest.find?
            (fun x => decide (m < x.1) && (p :: rest).all fun p' => decide (p'.1 ≤ x.1))
          = rest.find?
            (fun x => decide (m < x.1) && rest.all fun p' => decide (p'.1 ≤ x.1)) := by
        apply find?_congr_mem
        intro x hx
        by_cases hmx : m < x.1
        · have : p.1 ≤ x.1 := le_of_lt (lt_of_le_of_lt hle hmx)
          simp [List.all_cons, hmx, this]
        · simp [hmx]
      rw [hcong]

/-- Unseeded form: on a nonempty list the fold returns the value of the first
entry attaining the maximum alignment. -/
lemma runSel_none_cons (p : ℚ × ℕ) (rest : List (ℚ × ℕ)) (d : ℕ) :
    (runSel (p :: rest) (none, d)).2 = firstMaxVal (p :: rest) d := by
  show (runSel rest (some p.1, p.2)).2 = _
  rw [runSel_some]
  unfold firstMaxVal
  by_cases hall : ∀ x ∈ rest, x.1 ≤ p.1
  · have hfn : rest.find?
        (fun x => decide (p.1 < x.1) && rest.all fun p' => decide (p'.1 ≤ x.1)) = none := by
      rw [List.find?_eq_none]
      intro x hx hcontra
      simp only [Bool.and_eq_true, decide_eq_true_eq] at hcontra
      exact absurd (hall x hx) (not_le.mpr hcontra.1)
    have hPp : ((p :: rest).all fun p' => decide (p'.1 ≤ p.1)) = true := by
      simp only [List.all_cons, List.all_eq_true, decide_eq_true_eq, Bool.and_eq_true]
      exact ⟨le_refl _, fun x hx => hall x hx⟩
    rw [hfn]
    simp only [List.find?_cons, hPp]
  · push_neg at hall
    obtain ⟨x₀, hx₀, hgt⟩ := hall
    have hPp : (((p :: rest).all fun p' => decide (p'.1 ≤ p.1))) = false := by
      refine Bool.eq_false_iff.mpr ?_
      simp only [ne_eq, List.all_cons, List.all_eq_true, decide_eq_true_eq, Bool.and_eq_true]
      rintro ⟨-, hrest⟩
      exact absurd (hrest x₀ hx₀) (not_le.mpr hgt)
    simp only [List.find?_cons, hPp]
    have hcong : rest.find?
          (fun x => (p :: rest).all fun p' => decide (p'.1 ≤ x.1))
        = rest.find?
          (fun x => decide (p.1 < x.1) && rest.all fun p' => decide (p'.1 ≤ x.1)) := by
      apply find?_congr_mem
      intro x hx
      by_cases hA : (rest.all fun p' => decide (p'.1 ≤ x.1)) = true
      · have hx₀le : x₀.1 ≤ x.1 := by
          simp only [List.all_eq_true, decide_eq_true_eq] at hA
          exact hA x₀ hx₀
        have h1 : p.1 < x.1 := lt_of_lt_of_le hgt hx₀le
        simp [List.all_cons, hA, h1, le_of_lt h1]
      · simp [List.all_cons, hA]
    rw [hcong]
    obtain ⟨y, hy, hymax⟩ := exists_max_pair rest (List.ne_nil_of_mem hx₀)
    cases hres : rest.find?
        (fun x => decide (p.1 < x.1) && rest.all fun p' => decide (p'.1 ≤ x.1)) with
    | some y' => rfl
    | none =>
      rw [List.find?_eq_none] at hres
      refine absurd ?_ (hres y hy)
      simp only [Bool.and_eq_true, decide_eq_true_eq, List.all_eq_true]
      exact ⟨lt_of_lt_of_le hgt (hymax x₀ hx₀), fun x hx => hymax x hx⟩

/-- On any nonempty candidate list, the selection fold computes the
first-maximum value. -/
lemma runSel_none_eq_firstMax (l : List (ℚ × ℕ)) (hl : l ≠ []) (d : ℕ) :
    (runSel l (none, d)).2 = firstMaxVal l d := by
  cases l with
  | nil => exact absurd rfl hl
  | cons p rest => exact runSel_none_cons p rest d

lemma aligns_ne_nil (q : Quat) : aligns q ≠ [] := by
  simp [aligns, faces]

lemma resolve_eq_specResolve (q : Quat) :
    getDiceValueFromRotation q = specResolve q :=
  runSel_none_eq_firstMax (aligns q) (aligns_ne_nil q) 1

lemma mem_aligns_snd (q : Quat) (p : ℚ × ℕ) (hp : p ∈ aligns q) :
    1 ≤ p.2 ∧ p.2 ≤ 6 := by
  simp only [aligns, faces, List.map, List.mem_cons, List.not_mem_nil, or_false] at hp
  rcases hp with h | h | h | h | h | h <;> subst h <;> simp

lemma applyQuaternion_smulQ_sq_one (s : ℚ) (hs : s ^ 2 = 1) (q : Quat) (v : Vec3) :
    applyQuaternion (smulQ s q) v = applyQuaternion q v := by
  have hcases : s = 1 ∨ s = -1 := by
    have h0 : (s - 1) * (s + 1) = 0 := by linear_combination hs
    rcases mul_eq_zero.mp h0 with h | h
    · left; linarith
    · right; linarith
  rcases hcases with h | h <;> subst h <;>
    simp only [applyQuaternion, smulQ, Vec3.mk.injEq] <;>
    refine ⟨by ring, by ring, by ring⟩

lemma aligns_smulQ_sq_one (s : ℚ) (hs : s ^ 2 = 1) (q : Quat) :
    aligns (smulQ s q) = aligns q := by
  unfold aligns
  apply List.map_congr_left
  intro f _
  rw [applyQuaternion_smulQ_sq_one s hs q f.1]

lemma resolve_range (q : Quat) :
    1 ≤ getDiceValueFromRotation q ∧ getDiceValueFromRotation q ≤ 6 := by
  rw [resolve_eq_specResolve]
  unfold specResolve firstMaxVal
  cases hf : (aligns q).find? (fun p => (aligns q).all fun p' => decide (p'.1 ≤ p.1)) with
  | none => exact ⟨le_refl _, by norm_num⟩
  | some p => exact mem_aligns_snd q p (List.mem_of_find?_eq_some hf)

/-! ## Claim theorems -/

/-- C2: for every input quaternion the resolver returns the value of the face
whose rotated body-local normal has the maximum dot product with world-up,
with ties broken by the first maximum in the fixed iteration order
Z+ ↦ 1, X+ ↦ 2, Y+ ↦ 3, Z− ↦ 4, X− ↦ 5, Y− ↦ 6 (this is `specResolve`);
consequently the result is always in {1..6}, and six canonical axis-aligned
rotations (`canonQuat`) realize the six assigned face values. -/
theorem c2_orientation_resolver :
    (∀ q : Quat, getDiceValueFromRotation q = specResolve q)
    ∧ (∀ q : Quat, 1 ≤ getDiceValueFromRotation q ∧ getDiceValueFromRotation q ≤ 6)
    ∧ (getDiceValueFromRotation (canonQuat 1) = 1
       ∧ getDiceValueFromRotation (canonQuat 2) = 2
       ∧ getDiceValueFromRotation (canonQuat 3) = 3
       ∧ getDiceValueFromRotation (canonQuat 4) = 4
       ∧ getDiceValueFromRotation (canonQuat 5) = 5
       ∧ getDiceValueFromRotation (canonQuat 6) = 6) := by
  refine ⟨resolve_eq_specResolve, resolve_range, ?_, ?_, ?_, ?_, ?_, ?_⟩ <;>
    norm_num [getDiceValueFromRotation, aligns, faces, applyQuaternion, canonQuat, runSel]

/-- C7 counterexample: the resolver is not scale-invariant.  For the unit
quaternion `(1,0,0,0)` (the 180° rotation about X, face value 6) and the
positive scale `s = 1/2`, resolving `s·q` yields 3, not 6: the implementation
does not normalize its input. -/
theorem c7_counterexample :
    quatNormSq ⟨1, 0, 0, 0⟩ = 1
    ∧ (0 : ℚ) < 1/2
    ∧ getDiceValueFromRotation (smulQ (1/2) ⟨1, 0, 0, 0⟩) = 3
    ∧ getDiceValueFromRotation ⟨1, 0, 0, 0⟩ = 6
    ∧ getDiceValueFromRotation (smulQ (1/2) ⟨1, 0, 0, 0⟩)
        ≠ getDiceValueFromRotation ⟨1, 0, 0, 0⟩ := by
  refine ⟨by norm_num [quatNormSq], by norm_num, ?_, ?_, ?_⟩ <;>
    norm_num [getDiceValueFromRotation, aligns, faces, applyQuaternion, smulQ, runSel]

/-- C7 (amended): the resolver is invariant only under scalars of square one
(`s = ±1`); for every quaternion `q` and every scalar with `s² = 1`,
resolving `s·q` equals resolving `q`.  (Scale invariance for general positive
`s` fails, see the counterexample.) -/
theorem c7_sign_invariance (q : Quat) (s : ℚ) (hs : s ^ 2 = 1) :
    getDiceValueFromRotation (smulQ s q) = getDiceValueFromRotation q := by
  unfold getDiceValueFromRotation
  rw [aligns_smulQ_sq_one s hs q]

/-- Witness for `c7_sign_invariance` at `s = -1`, `q = (1,0,0,0)`. -/
theorem c7_sign_invariance_witness :
    ((-1 : ℚ)) ^ 2 = 1
    ∧ getDiceValueFromRotation (smulQ (-1) ⟨1, 0, 0, 0⟩)
        = getDiceValueFromRotation ⟨1, 0, 0, 0⟩ :=
  ⟨by norm_num, c7_sign_invariance ⟨1, 0, 0, 0⟩ (-1) (by norm_num)⟩

/-! ## Body lock and stability lemmas -/

lemma lockDicePhysics_of_locked (b : DiceBody) (h : b.locked = true) :
    lockDicePhysics b = b := by
  simp [lockDicePhysics, h]

lemma checkStability_of_locked (b : DiceBody) (p : Vec3) (h : b.locked = true) :
    checkStability b p = b := by
  simp [checkStability, h]

lemma lockDicePhysics_of_unlocked (b : DiceBody) (h : b.locked = false) :
    (lockDicePhysics b).locked = true
    ∧ (lockDicePhysics b).stableEvents
        = b.stableEvents ++ [(b.index, getDiceValueFromRotation b.rotation)] := by
  simp [lockDicePhysics, h]

lemma stepOp_cases (b : DiceBody) (op : DiceOp) (h : b.locked = false) :
    ((stepOp b op).locked = true
      ∧ (stepOp b op).stableEvents.length = b.stableEvents.length + 1)
    ∨ ((stepOp b op).locked = false
      ∧ (stepOp b op).stableEvents = b.stableEvents) := by
  cases op with
  | lock =>
    left
    constructor <;> simp [stepOp, lockDicePhysics, h]
  | check p =>
    by_cases hst : isStableNow (pushHistory b.history p) b.linvel b.angvel = true
    · left
      constructor <;> simp [stepOp, checkStability, h, hst, lockDicePhysics]
    · have hf : isStableNow (pushHistory b.history p) b.linvel b.angvel = false := by
        simpa using hst
      right
      constructor <;> simp [stepOp, checkStability, h, hf]

lemma runOps_of_locked (ops : List DiceOp) : ∀ b : DiceBody, b.locked = true →
    runOps b ops = b := by
  induction ops with
  | nil => intro b _; rfl
  | cons op rest ih =>
    intro b h
    have hstep : stepOp b op = b := by
      cases op <;> simp [stepOp, lockDicePhysics, checkStability, h]
    have : runOps b (op :: rest) = runOps (stepOp b op) rest := by
      simp [runOps]
    rw [this, hstep]
    exact ih b h

lemma runOps_events_bound (ops : List DiceOp) : ∀ b : DiceBody,
    (runOps b ops).stableEvents.length
      ≤ b.stableEvents.length + (if b.locked = true then 0 else 1) := by
  induction ops with
  | nil =>
    intro b
    have : runOps b [] = b := rfl
    rw [this]
    split <;> omega
  | cons op rest ih =>
    intro b
    by_cases h : b.locked = true
    · rw [runOps_of_locked (op :: rest) b h]
      split <;> omega
    · have hb : b.locked = false := by simpa using h
      have hrun : runOps b (op :: rest) = runOps (stepOp b op) rest := by
        simp [runOps]
      rw [hrun]
      rcases stepOp_cases b op hb with ⟨hl, he⟩ | ⟨hl, he⟩
      · rw [runOps_of_locked rest _ hl, he]
        simp [hb]
      · have h2 := ih (stepOp b op)
        rw [hl, he] at h2
        simp only [if_neg (by simp : ¬(false = true))] at h2
        simpa [hb] using h2

lemma checkStability_locked_eq (b : DiceBody) (p : Vec3) (hb : b.locked = false) :
    (checkStability b p).locked
      = isStableNow (pushHistory b.history p) b.linvel b.angvel := by
  unfold checkStability
  by_cases hst : isStableNow (pushHistory b.history p) b.linvel b.angvel = true
  · simp [hb, hst, lockDicePhysics]
  · have hf : isStableNow (pushHistory b.history p) b.linvel b.angvel = false := by
      simpa using hst
    simp [hb, hf]

lemma isStableNow_iff (h : List Vec3) (lv av : Vec3) :
    isStableNow h lv av = true ↔
      5 ≤ h.length
      ∧ (∀ i ∈ [1, 2, 3, 4],
          distSq (h.getD (h.length - i - 1) zeroVec) (h.getD (h.length - i) zeroVec)
            ≤ posEps ^ 2)
      ∧ normSq lv ≤ velEps ^ 2 ∧ normSq av ≤ velEps ^ 2 := by
  have hr : List.range' 1 4 = [1, 2, 3, 4] := rfl
  unfold isStableNow pairsStable velStable
  rw [hr]
  simp only [Bool.and_eq_true, List.all_eq_true, Bool.not_eq_true',
    decide_eq_false_iff_not, decide_eq_true_eq, not_lt]
  tauto

lemma runChecks_small : ∀ (ps : List Vec3) (b : DiceBody), b.locked = false →
    b.history.length + ps.length ≤ 4 →
    runChecks b ps = { b with history := b.history ++ ps } := by
  intro ps
  induction ps with
  | nil =>
    intro b _ _
    show b = _
    simp
  | cons p rest ih =>
    intro b hb hlen
    have hlen' : b.history.length + 1 ≤ 4 := by
      simp only [List.length_cons] at hlen
      omega
    have hpush : pushHistory b.history p = b.history ++ [p] := by
      unfold pushHistory
      rw [if_neg]
      simp only [List.length_append, List.length_singleton]
      omega
    have hstable : isStableNow (b.history ++ [p]) b.linvel b.angvel = false := by
      unfold isStableNow
      have h5 : ¬(5 ≤ (b.history ++ [p]).length) := by
        simp only [List.length_append, List.length_singleton]
        omega
      simp only [List.length_append, List.length_singleton] at h5
      simp only [List.length_append, List.length_singleton]
      simp
      intro h4 _
      omega
    have hstep : checkStability b p = { b with history := b.history ++ [p] } := by
      unfold checkStability
      simp [hb, hpush, hstable]
    have hfold : runChecks b (p :: rest) = runChecks (checkStability b p) rest := by
      simp [runChecks]
    rw [hfold, hstep,
      ih { b with history := b.history ++ [p] } (by simp [hb])
        (by simp only [List.length_append, List.length_singleton]
            simp only [List.length_cons] at hlen
            omega)]
    simp [List.append_assoc]

/-- C1: after a respawn (lock flag clear), a `checkStability` tick reports
settled (locks the body) iff the post-push sample history holds at least 5
samples, each of the 4 displacements between consecutive pairs of the 5 most
recent positions is at most `posEps = 1e-4` (squared comparison), and the
linear and angular velocity magnitudes are both at most `velEps = 5e-3`;
in particular the check never fires during the first 4 ticks after a reset,
and 5 consecutive samples within `1e-5` of each other with zero velocities
settle exactly on the 5th check, not earlier. -/
theorem c1_settle_detection :
    (∀ (b : DiceBody) (p : Vec3), b.locked = false →
       ((checkStability b p).locked = true ↔
         5 ≤ (pushHistory b.history p).length
         ∧ (∀ i ∈ [1, 2, 3, 4],
             distSq ((pushHistory b.history p).getD
                       ((pushHistory b.history p).length - i - 1) zeroVec)
                    ((pushHistory b.history p).getD
                       ((pushHistory b.history p).length - i) zeroVec)
               ≤ posEps ^ 2)
         ∧ normSq b.linvel ≤ velEps ^ 2 ∧ normSq b.angvel ≤ velEps ^ 2))
    ∧ (∀ (b : DiceBody) (ps : List Vec3), b.locked = false → b.history = [] →
        ps.length < 5 →
        (runChecks b ps).locked = false ∧ (runChecks b ps).stableEvents = b.stableEvents)
    ∧ (∀ (b : DiceBody) (p1 p2 p3 p4 p5 : Vec3), b.locked = false → b.history = [] →
        b.linvel = zeroVec → b.angvel = zeroVec →
        (∀ q ∈ [p1, p2, p3, p4, p5], ∀ r ∈ [p1, p2, p3, p4, p5],
          distSq q r ≤ (1/100000 : ℚ) ^ 2) →
        (runChecks b [p1, p2, p3, p4]).locked = false
        ∧ (runChecks b [p1, p2, p3, p4, p5]).locked = true) := by
  refine ⟨?_, ?_, ?_⟩
  · intro b p hb
    rw [checkStability_locked_eq b p hb]
    exact isStableNow_iff _ _ _
  · intro b ps hb hhist hlen
    rw [runChecks_small ps b hb (by rw [hhist]; simp; omega)]
    exact ⟨hb, rfl⟩
  · intro b p1 p2 p3 p4 p5 hb hhist hlv hav hp
    have h4 : runChecks b [p1, p2, p3, p4]
        = { b with history := b.history ++ [p1, p2, p3, p4] } :=
      runChecks_small _ b hb (by rw [hhist]; simp)
    refine ⟨by rw [h4]; exact hb, ?_⟩
    have hfold : runChecks b [p1, p2, p3, p4, p5]
        = checkStability (runChecks b [p1, p2, p3, p4]) p5 := by
      simp [runChecks]
    rw [hfold, h4]
    have hBl : ({ b with history := b.history ++ [p1, p2, p3, p4] } : DiceBody).locked
        = false := hb
    rw [checkStability_locked_eq _ p5 hBl]
    have hpush : pushHistory
        ({ b with history := b.history ++ [p1, p2, p3, p4] } : DiceBody).history p5
        = [p1, p2, p3, p4, p5] := by
      show pushHistory (b.history ++ [p1, p2, p3, p4]) p5 = _
      rw [hhist]
      unfold pushHistory
      rw [if_neg]
      · rfl
      · simp
    have hBlv : ({ b with history := b.history ++ [p1, p2, p3, p4] } : DiceBody).linvel
        = zeroVec := hlv
    have hBav : ({ b with history := b.history ++ [p1, p2, p3, p4] } : DiceBody).angvel
        = zeroVec := hav
    rw [hpush, hBlv, hBav]
    have h12 : distSq p1 p2 ≤ (1/100000 : ℚ) ^ 2 := hp p1 (by simp) p2 (by simp)
    have h23 : distSq p2 p3 ≤ (1/100000 : ℚ) ^ 2 := hp p2 (by simp) p3 (by simp)
    have h34 : distSq p3 p4 ≤ (1/100000 : ℚ) ^ 2 := hp p3 (by simp) p4 (by simp)
    have h45 : distSq p4 p5 ≤ (1/100000 : ℚ) ^ 2 := hp p4 (by simp) p5 (by simp)
    have heps : (1/100000 : ℚ) ^ 2 ≤ posEps ^ 2 := by norm_num [posEps]
    refine (isStableNow_iff _ _ _).mpr ⟨by simp, ?_, ?_, ?_⟩
    · intro i hi
      fin_cases hi
      · simpa using le_trans h45 heps
      · simpa using le_trans h34 heps
      · simpa using le_trans h23 heps
      · simpa using le_trans h12 heps
    · norm_num [normSq, zeroVec, velEps]
    · norm_num [normSq, zeroVec, velEps]

/-- Witness for `c1_settle_detection` (third part) at a fresh body fed 5
identical zero samples: it locks on the 5th check. -/
theorem c1_settle_detection_witness :
    (runChecks freshBody [zeroVec, zeroVec, zeroVec, zeroVec, zeroVec]).locked = true :=
  (c1_settle_detection.2.2 freshBody zeroVec zeroVec zeroVec zeroVec zeroVec rfl rfl rfl rfl
    (by
      intro q hq r hr
      simp only [List.mem_cons, List.not_mem_nil, or_false, or_self] at hq hr
      subst hq; subst hr
      norm_num [distSq, zeroVec])).2

/-- C6: the freeze action is one-shot per body per roll — once the lock flag
is set, `lockDicePhysics` and `checkStability` leave the body unchanged, and
over any interleaving of detector checks and forced-timeout lock attempts the
`onStable` callback fires at most once (never once each from both paths). -/
theorem c6_lock_idempotent :
    (∀ b : DiceBody, b.locked = true → lockDicePhysics b = b)
    ∧ (∀ (b : DiceBody) (p : Vec3), b.locked = true → checkStability b p = b)
    ∧ (∀ (b : DiceBody) (ops : List DiceOp),
        (runOps b ops).stableEvents.length
          ≤ b.stableEvents.length + (if b.locked = true then 0 else 1)) :=
  ⟨lockDicePhysics_of_locked, checkStability_of_locked,
   fun b ops => runOps_events_bound ops b⟩

/-- Witness for `c6_lock_idempotent` at a concrete locked body. -/
theorem c6_lock_idempotent_witness :
    lockDicePhysics lockedBody = lockedBody
    ∧ checkStability lockedBody zeroVec = lockedBody :=
  ⟨c6_lock_idempotent.1 lockedBody rfl,
   c6_lock_idempotent.2.1 lockedBody zeroVec rfl⟩

/-! ## Coordinator lemmas -/

lemma handleDiceStable_count (i v : ℕ) (s : CoordState) :
    (handleDiceStable i v s).stableDiceCount = s.stableDiceCount + 1 := by
  unfold handleDiceStable
  dsimp only
  split <;> rfl

lemma handleDiceStable_inv (i v : ℕ) (s : CoordState) (k : ℕ)
    (h1 : s.stableDiceCount = k)
    (h2 : s.hasCalculatedPoints = decide (5 ≤ k))
    (h3 : s.completionsFired = if 5 ≤ k then 1 else 0) :
    (handleDiceStable i v s).stableDiceCount = k + 1
    ∧ (handleDiceStable i v s).hasCalculatedPoints = decide (5 ≤ k + 1)
    ∧ (handleDiceStable i v s).completionsFired = if 5 ≤ k + 1 then 1 else 0 := by
  unfold handleDiceStable
  dsimp only
  by_cases hk : k + 1 = 5
  · have hklt : ¬(5 ≤ k) := by omega
    have h2' : s.hasCalculatedPoints = false := by rw [h2]; simp [hklt]
    have h3' : s.completionsFired = 0 := by rw [h3, if_neg hklt]
    have hcond : ((s.stableDiceCount + 1 = diceCount : Bool) && !s.hasCalculatedPoints)
        = true := by
      simp [h1, h2', diceCount, hk]
    simp only [hcond, if_true]
    refine ⟨by simp [h1], by simp [hk], by simp [h3', hk]⟩
  · have hcond : ((s.stableDiceCount + 1 = diceCount : Bool) && !s.hasCalculatedPoints)
        = false := by
      have : ¬(s.stableDiceCount + 1 = diceCount) := by
        rw [h1]; simp [diceCount]; omega
      simp [this]
    simp only [hcond, if_false]
    refine ⟨by simp [h1], ?_, ?_⟩
    · rw [h2]
      by_cases h5 : 5 ≤ k
      · have h5' : 5 ≤ k + 1 := by omega
        simp [h5, h5']
      · have h5' : ¬(5 ≤ k + 1) := by omega
        simp [h5, h5']
    · rw [h3]
      by_cases h5 : 5 ≤ k
      · have h5' : 5 ≤ k + 1 := by omega
        simp [h5, h5']
      · have h5' : ¬(5 ≤ k + 1) := by omega
        simp [h5, h5']

lemma session_inv (ds : List (ℕ × ℕ)) : ∀ (s : CoordState) (k : ℕ),
    s.stableDiceCount = k →
    s.hasCalculatedPoints = decide (5 ≤ k) →
    s.completionsFired = (if 5 ≤ k then 1 else 0) →
    (runDeliveries ds s).stableDiceCount = k + ds.length
    ∧ (runDeliveries ds s).hasCalculatedPoints = decide (5 ≤ k + ds.length)
    ∧ (runDeliveries ds s).completionsFired = (if 5 ≤ k + ds.length then 1 else 0) := by
  induction ds with
  | nil =>
    intro s k h1 h2 h3
    exact ⟨by simpa [runDeliveries] using h1, by simpa [runDeliveries] using h2,
      by simpa [runDeliveries] using h3⟩
  | cons d rest ih =>
    intro s k h1 h2 h3
    have hrun : runDeliveries (d :: rest) s = runDeliveries rest (handleDiceStable d.1 d.2 s) := by
      simp [runDeliveries]
    obtain ⟨g1, g2, g3⟩ := handleDiceStable_inv d.1 d.2 s k h1 h2 h3
    have := ih (handleDiceStable d.1 d.2 s) (k + 1) g1 g2 g3
    rw [hrun]
    have hlen : k + 1 + rest.length = k + (d :: rest).length := by simp; omega
    rw [hlen] at this
    exact this

lemma bodyLockTime_le (n : Option ℕ) (d : ℕ) : bodyLockTime n d ≤ d := by
  cases n <;> simp [bodyLockTime]

lemma computePoints_general : ∀ (rots : List Quat) (acc : List ℕ × ℕ),
    rots.foldl
      (fun acc r =>
        let v := getDiceValueFromRotation r
        (acc.1 ++ [v], acc.2 + v)) acc
      = (acc.1 ++ rots.map getDiceValueFromRotation,
         acc.2 + (rots.map getDiceValueFromRotation).sum) := by
  intro rots
  induction rots with
  | nil => intro acc; simp
  | cons r rest ih =>
    intro acc
    rw [List.foldl_cons, ih]
    simp [add_assoc]

/-- C3 counterexample: there is no idempotence guard in `handleDiceStable` —
delivering `settled(0, 3)` twice in a fresh session makes the settled count 2,
not 1, and five duplicate deliveries from the single body 0 reach completion. -/
theorem c3_counterexample :
    (runDeliveries [(0, 3), (0, 3)] initSession).stableDiceCount = 2
    ∧ (runDeliveries [(0, 3), (0, 3)] initSession).stableDiceCount ≠ 1
    ∧ (runDeliveries [(0, 3), (0, 3), (0, 3), (0, 3), (0, 3)] initSession).completionsFired
        = 1 :=
  ⟨rfl, by decide, rfl⟩

/-- C3 (amended): the coordinator has no per-bodyIndex idempotence guard —
every `settled` delivery increments the settled count, so a duplicate delivery
for the same bodyIndex double-increments it; per-roll at-most-once settling is
enforced only by each body's lock flag on the sender side. -/
theorem c3_count_not_idempotent :
    (∀ (s : CoordState) (i v : ℕ),
      (handleDiceStable i v s).stableDiceCount = s.stableDiceCount + 1)
    ∧ (∀ (s : CoordState) (i v : ℕ),
      (handleDiceStable i v (handleDiceStable i v s)).stableDiceCount
        = s.stableDiceCount + 2) := by
  refine ⟨fun s i v => handleDiceStable_count i v s, fun s i v => ?_⟩
  rw [handleDiceStable_count, handleDiceStable_count]

/-- C4: in a session with `diceCount = 5`, the settled count after `k`
deliveries is `k`, and the completion fires exactly once, on the delivery
where the count first reaches 5 — never while the count is below 5 and never
a second time (one-shot flag) — scheduled after the 100 ms confirmation
delay. -/
theorem c4_completion_exactly_once :
    (∀ ds : List (ℕ × ℕ), (runDeliveries ds initSession).stableDiceCount = ds.length)
    ∧ (∀ ds : List (ℕ × ℕ),
        (runDeliveries ds initSession).completionsFired = if 5 ≤ ds.length then 1 else 0)
    ∧ (∀ (ds : List (ℕ × ℕ)) (d : ℕ × ℕ),
        (runDeliveries (ds ++ [d]) initSession).completionsFired
          = (runDeliveries ds initSession).completionsFired
            + (if ds.length + 1 = 5 then 1 else 0))
    ∧ pointsCalcDelay = 100 := by
  have hbase : ∀ ds : List (ℕ × ℕ),
      (runDeliveries ds initSession).stableDiceCount = ds.length
      ∧ (runDeliveries ds initSession).completionsFired
          = if 5 ≤ ds.length then 1 else 0 := by
    intro ds
    have h := session_inv ds initSession 0 rfl rfl rfl
    exact ⟨by simpa using h.1, by simpa using h.2.2⟩
  refine ⟨fun ds => (hbase ds).1, fun ds => (hbase ds).2, ?_, rfl⟩
  intro ds d
  rw [(hbase (ds ++ [d])).2, (hbase ds).2]
  simp only [List.length_append, List.length_singleton]
  split_ifs <;> omega

/-- C5: `handleReset` while a roll is in flight is a no-op and the trigger is
not accepted; a new roll is accepted exactly when the rolling flag is clear,
and then it increments the reset counter (the respawn broadcast), sets the
rolling flag and clears the session state. -/
theorem c5_trigger_noop_while_rolling (s : ContainerState) :
    (s.isRolling = true → handleReset s = s ∧ triggerAccepted s = false)
    ∧ (s.isRolling = false → triggerAccepted s = true
        ∧ (handleReset s).isRolling = true
        ∧ (handleReset s).resetCount = s.resetCount + 1
        ∧ (handleReset s).stableDiceCount = 0
        ∧ (handleReset s).hasCalculatedPoints = false
        ∧ (handleReset s).totalPoints = 0) := by
  constructor
  · intro h
    exact ⟨by simp [handleReset, h], by simp [triggerAccepted, h]⟩
  · intro h
    refine ⟨by simp [triggerAccepted, h], ?_, ?_, ?_, ?_, ?_⟩ <;> simp [handleReset, h]

/-- Witness for `c5_trigger_noop_while_rolling` at a concrete in-flight
container state. -/
theorem c5_trigger_witness :
    handleReset rollingContainer = rollingContainer
    ∧ triggerAccepted rollingContainer = false :=
  (c5_trigger_noop_while_rolling rollingContainer).1 rfl

/-- C8: both observed configurations keep the global rolling flag set strictly
longer than the latest per-body forced-freeze deadline (start delay + forced
timeout + callback delay): 100+3000+0 < 4000 (`part_002` + `Dice.tsx`) and
100+4000+50 < 4500 (`part_001` + `part_003`); hence every body's lock time —
natural settle or forced — precedes the instant the flag clears, and the lock
action always leaves the body locked. -/
theorem c8_rolling_outlasts_freeze :
    bodyForcedDeadline < rollingFlagTimeout
    ∧ bodyForcedDeadlineAlt < rollingFlagTimeoutAlt
    ∧ (∀ (settle : Fin diceCount → Option ℕ) (i : Fin diceCount),
        bodyLockTime (settle i) bodyForcedDeadline < rollingFlagTimeout
        ∧ bodyLockTime (settle i) bodyForcedDeadlineAlt < rollingFlagTimeoutAlt)
    ∧ (∀ b : DiceBody, (lockDicePhysics b).locked = true) := by
  have hA : bodyForcedDeadline < rollingFlagTimeout := by
    norm_num [bodyForcedDeadline, rollingFlagTimeout, diceStartDelay,
      forcedLockTimeout, stableCallbackDelay]
  have hB : bodyForcedDeadlineAlt < rollingFlagTimeoutAlt := by
    norm_num [bodyForcedDeadlineAlt, rollingFlagTimeoutAlt, diceStartDelay,
      forcedLockTimeoutAlt, stableCallbackDelayAlt]
  refine ⟨hA, hB, ?_, ?_⟩
  · intro settle i
    exact ⟨lt_of_le_of_lt (bodyLockTime_le _ _) hA,
           lt_of_le_of_lt (bodyLockTime_le _ _) hB⟩
  · intro b
    by_cases h : b.locked = true
    · rw [lockDicePhysics_of_locked b h]; exact h
    · have hf : b.locked = false := by simpa using h
      simp [lockDicePhysics, hf]

/-- C9: the aggregator computes the per-body breakdown in body order and the
total as the full sum; for rotations resolving to `[3, 5, 1, 6, 2]` the
breakdown is that list in input order and the total is 17. -/
theorem c9_aggregation :
    (∀ rots : List Quat,
      (computePoints rots).1 = rots.map getDiceValueFromRotation
      ∧ (computePoints rots).2 = (rots.map getDiceValueFromRotation).sum)
    ∧ computePoints [canonQuat 3, canonQuat 5, canonQuat 1, canonQuat 6, canonQuat 2]
        = ([3, 5, 1, 6, 2], 17) := by
  constructor
  · intro rots
    unfold computePoints
    rw [computePoints_general]
    exact ⟨by simp, by simp⟩
  · have e1 : getDiceValueFromRotation (canonQuat 1) = 1 := by
      norm_num [getDiceValueFromRotation, aligns, faces, applyQuaternion, canonQuat, runSel]
    have e2 : getDiceValueFromRotation (canonQuat 2) = 2 := by
      norm_num [getDiceValueFromRotation, aligns, faces, applyQuaternion, canonQuat, runSel]
    have e3 : getDiceValueFromRotation (canonQuat 3) = 3 := by
      norm_num [getDiceValueFromRotation, aligns, faces, applyQuaternion, canonQuat, runSel]
    have e5 : getDiceValueFromRotation (canonQuat 5) = 5 := by
      norm_num [getDiceValueFromRotation, aligns, faces, applyQuaternion, canonQuat, runSel]
    have e6 : getDiceValueFromRotation (canonQuat 6) = 6 := by
      norm_num [getDiceValueFromRotation, aligns, faces, applyQuaternion, canonQuat, runSel]
    simp [computePoints, e1, e2, e3, e5, e6]

/-- C10: the reset effect acts only when the delivered `resetCount` is
positive and differs from the last processed value; re-delivering an
unchanged `resetCount` (or 0) changes nothing — no respawn is scheduled, no
timers restart, the lock flag and sample history are untouched. -/
theorem c10_reset_effect_idempotent :
    (∀ (c : DiceCtrl) (rc : ℕ), rc = c.lastResetCount → resetEffect c rc = c)
    ∧ (∀ c : DiceCtrl, resetEffect c 0 = c)
    ∧ (∀ (c : DiceCtrl) (rc : ℕ), resetEffect (resetEffect c rc) rc = resetEffect c rc) := by
  refine ⟨?_, ?_, ?_⟩
  · intro c rc h
    unfold resetEffect
    rw [if_neg]
    rintro ⟨-, hne⟩
    exact hne h
  · intro c
    unfold resetEffect
    rw [if_neg]
    rintro ⟨h0, -⟩
    exact absurd h0 (by omega)
  · intro c rc
    by_cases hc : 0 < rc ∧ rc ≠ c.lastResetCount
    · have hstep : resetEffect c rc
          = { c with
              lastResetCount := rc
              history := []
              isResetting := true
              currentDamping := 1/2
              locked := false
              finalValue := 1
              respawnsScheduled := c.respawnsScheduled + 1 } := by
        unfold resetEffect
        rw [if_pos hc]
      rw [hstep]
      unfold resetEffect
      rw [if_neg]
      rintro ⟨-, hne⟩
      exact hne rfl
    · have hnoop : resetEffect c rc = c := by
        unfold resetEffect
        rw [if_neg hc]
      rw [hnoop, hnoop]

/-- Witness for `c10_reset_effect_idempotent` at a controller that already
processed reset count 7. -/
theorem c10_reset_witness : resetEffect ctrlAfterSeven 7 = ctrlAfterSeven :=
  c10_reset_effect_idempotent.1 ctrlAfterSeven 7 rfl
